import Mathlib

/-!
# Verification of the py2math tree-to-LaTeX converter

A shallow embedding of `src/py2math.py`: the `Converter` (a lark
`Interpreter` subclass) that renders Python parse trees as LaTeX, the
`bracketize` helper, and the public `py2math` entry point.

The external parser (lark with its bundled `python.lark` LALR grammar) is
out of scope per the specification; parse trees are modelled as inputs of
type `PTree`.  A lark tree node carries a `data` tag (the rule name) and a
list of children, each of which is a nested tree, a lexical `Token`
(carrying a terminal type and the matched source text), or the `None`
placeholder lark inserts for a missing optional part.

Values produced while visiting are modelled by `Frag`: the Converter's
methods return either a lark `Token` (a `str` subclass, used for atomic
leaves), a plain rendered string, a Python list (what lark's
`Interpreter.__default__` returns for a node kind with no method), or
`None`.  `bracketize` distinguishes Tokens from everything else with
`isinstance(x, Token)`, so this distinction is semantically load-bearing.

Python-level operations that the source relies on (`str()` and `repr()` of
these values, f-string interpolation, `str.join`, truthiness, iteration,
substring membership) are modelled by the `py`-prefixed helpers below.
-/

/-- A value manipulated by the Converter: a lark `Token` (terminal type and
matched text), a plain Python string, a Python list of such values (what
`Interpreter.__default__` produces), or Python's `None`. -/
inductive Frag where
  | tok (ty : String) (tv : String)
  | str (s : String)
  | list (xs : List Frag)
  | pyNone

mutual

/-- Python `str(x)` for a `Frag`: a `Token` is a `str` subclass holding the
matched text, `str` of a list is its bracketed comma-joined element
`repr`s, and `str(None) = "None"`. -/
def Frag.toStr : Frag → String
  | .tok _ v => v
  | .str s => s
  | .pyNone => "None"
  | .list xs => "[" ++ Frag.joinReprs xs ++ "]"

/-- Python `repr(x)` for a `Frag`.  lark's `Token.__repr__` is
`'Token(%r, %r)' % (self.type, self.value)`; for the plain identifier-like
strings appearing here, `%r` of a string is the text between two single
quotes (written `\x27`). -/
def Frag.reprStr : Frag → String
  | .tok ty v => "Token(\x27" ++ ty ++ "\x27, \x27" ++ v ++ "\x27)"
  | .str s => "\x27" ++ s ++ "\x27"
  | .pyNone => "None"
  | .list xs => "[" ++ Frag.joinReprs xs ++ "]"

/-- The element reprs of a Python list, joined with `", "` (as in
`list.__repr__`). -/
def Frag.joinReprs : List Frag → String
  | [] => ""
  | [x] => x.reprStr
  | x :: y :: rest => x.reprStr ++ ", " ++ Frag.joinReprs (y :: rest)

end

/-- Whether the value is a Python `str` (a `Token` is a `str` subclass). -/
def Frag.isStrLike : Frag → Bool
  | .tok _ _ => true
  | .str _ => true
  | _ => false

/-- The string content of a str-like value; a `TypeError` otherwise (as
raised by Python string concatenation / `str.join` on a non-str). -/
def asStrLike : Frag → Except String String
  | .tok _ v => pure v
  | .str s => pure s
  | .list _ => .error "TypeError: expected str, got list"
  | .pyNone => .error "TypeError: expected str, got None"

/-- Python truthiness of a `Frag` (`if x:`): a string is truthy iff
nonempty, a list iff nonempty, `None` is falsy. -/
def pyTruthy : Frag → Bool
  | .tok _ v => v ≠ ""
  | .str s => s ≠ ""
  | .list xs => !xs.isEmpty
  | .pyNone => false

/-- Python iteration over a value (`for x in v`): a list yields its
elements, a string yields its characters (as one-character strings),
`None` is not iterable. -/
def pyIter : Frag → Except String (List Frag)
  | .list xs => pure xs
  | .tok _ v => pure (v.data.map fun c => .str (String.singleton c))
  | .str s => pure (s.data.map fun c => .str (String.singleton c))
  | .pyNone => .error "TypeError: NoneType is not iterable"

/-- Python `sep.join(xs)`: every element must be str-like, else
`TypeError`. -/
def pyJoin (sep : String) : List Frag → Except String String
  | [] => pure ""
  | [x] => asStrLike x
  | x :: y :: rest => do
    let s ← asStrLike x
    let t ← pyJoin sep (y :: rest)
    pure (s ++ sep ++ t)

/-- Python `' '.join(x)` as used on a visited `comp_op` child: joining a
list joins its str-like elements; joining a string interleaves its
characters with spaces. -/
def pyJoinSpace : Frag → Except String String
  | .list xs => pyJoin " " xs
  | .tok _ v => pure (String.intercalate " " (v.data.map String.singleton))
  | .str s => pure (String.intercalate " " (s.data.map String.singleton))
  | .pyNone => .error "TypeError: NoneType is not iterable"

/-- `bracketize` from the source: put brackets around non-trivial
expressions — `return x if isinstance(x, Token) else f'\left({x}\right)'`.
A `Token` is returned unchanged; anything else is interpolated into one
auto-sized parenthesis pair. -/
def bracketize : Frag → Frag
  | .tok ty v => .tok ty v
  | x => .str ("\\left(" ++ x.toStr ++ "\\right)")

/-- A lark parse-tree child: a nested rule node (tagged with the rule
name), a terminal `Token` (terminal type and matched source text), or the
`None` placeholder for a missing optional grammar element. -/
inductive PTree where
  | token (ty : String) (tv : String)
  | phNone
  | node (data : String) (children : List PTree)

/-- Python `x.data` on a parse-tree child: the rule name for a node, an
`AttributeError` for a `Token` or `None`. -/
def kindOf : PTree → Except String String
  | .node d _ => pure d
  | .token _ _ => .error "AttributeError: Token has no attribute data"
  | .phNone => .error "AttributeError: NoneType has no attribute data"

/-- The check `all(x.data == 'assign_stmt' for x in tree.children[:-1])`
from `Converter.suite`, evaluated left to right and stopping at the first
non-`assign_stmt` child (where the enclosing `assert` fails). -/
def checkAssigns : List PTree → Except String Unit
  | [] => pure ()
  | x :: rest => do
    let k ← kindOf x
    if k = "assign_stmt" then
      checkAssigns rest
    else
      .error "AssertionError: only assignments are supported before the return"

/-- Tuple unpacking `a, = xs` (exactly one element, else `ValueError`). -/
def unpack1 : List Frag → Except String Frag
  | [x] => pure x
  | _ => .error "ValueError: unpack"

/-- Python `x in '*/'` — substring membership in the two-character string
`"*/"`, whose substrings are exactly `""`, `"*"`, `"/"` and `"*/"`. -/
def pyInStarSlash (s : String) : Bool :=
  s = "" || s = "*" || s = "/" || s = "*/"

/-- The loop of `Converter.term`: walk the visited children together with
their position parity (`i % 2 == 0` means operand, modelled by the
`isOp` flag that flips each step).  An operand is appended to the divisor
list when currently dividing, else to the dividend list; an operator sets
the dividing flag via `dividing = x == '/'` when `x in '*/'`, and raises
`NotImplementedError` otherwise. -/
def termScan : Bool → Bool → List Frag → List Frag → List Frag →
    Except String (List Frag × List Frag)
  | _, _, dividend, divisor, [] => pure (dividend, divisor)
  | false, dividing, dividend, divisor, x :: rest =>
    if dividing then
      termScan true dividing dividend (divisor ++ [x]) rest
    else
      termScan true dividing (dividend ++ [x]) divisor rest
  | true, _, dividend, divisor, x :: rest => do
    let s ← asStrLike x
    if pyInStarSlash s then
      termScan false (s = "/") dividend divisor rest
    else
      .error "NotImplementedError: unsupported term operator"

/-- The tail of `Converter.term` after the scan: bracketize each dividend
element when there is more than one, join with `' \cdot '`; same for the
divisor; produce `\frac{dividend}{divisor}` when the divisor list is
nonempty, else just the dividend join. -/
def termRender (dividend divisor : List Frag) : Except String Frag := do
  let dividend := if 1 < dividend.length then dividend.map bracketize else dividend
  let dividendStr ← pyJoin " \\cdot " dividend
  if !divisor.isEmpty then
    let divisor := if 1 < divisor.length then divisor.map bracketize else divisor
    let divisorStr ← pyJoin " \\cdot " divisor
    pure (.str ("\\frac\x7b" ++ dividendStr ++ "\x7d\x7b" ++ divisorStr ++ "\x7d"))
  else
    pure (.str dividendStr)

/-- The loop of `Converter.arith_expr`: at an even position (`isOp =
false`) append `bracketize(x)`, at an odd position append the operator
value itself. -/
def arithFold : Bool → String → List Frag → Except String String
  | _, acc, [] => pure acc
  | false, acc, x :: rest => arithFold true (acc ++ (bracketize x).toStr) rest
  | true, acc, x :: rest => do
    let s ← asStrLike x
    arithFold false (acc ++ s) rest

/-- The operator dictionary of `Converter.comparison`, keyed by
`' '.join(x)` of the visited `comp_op` child. -/
def compOpTable : List (String × String) :=
  [("<", " < "), (">", " > "), ("==", " = "), (">=", " \\geq "),
   ("<=", " \\leq "), ("!=", " \\neq "), ("in", " \\in "),
   ("not in", " \\notin "), ("is", " \\equiv "), ("is not", " \\not\\equiv ")]

/-- The loop of `Converter.comparison`: bracketize operands at even
positions; at odd positions look the operator up in `compOpTable` (a
missing key is Python's `KeyError`). -/
def compFold : Bool → String → List Frag → Except String String
  | _, acc, [] => pure acc
  | false, acc, x :: rest => compFold true (acc ++ (bracketize x).toStr) rest
  | true, acc, x :: rest => do
    let key ← pyJoinSpace x
    match compOpTable.lookup key with
    | some v => compFold false (acc ++ v) rest
    | none => .error "KeyError: unsupported comparison operator"

/-- `Converter.suite` after its `visit_children` call: assert that the
last raw child is a `return_stmt` and that every raw child before it is an
`assign_stmt`; then a single-line body yields its one rendered line, and a
multi-line body yields the final (return) line, a line break with the
`\text{where}` label, and the earlier (assignment) lines in original order
joined by line breaks. -/
def suiteRule (cs : List PTree) (lines : List Frag) : Except String Frag :=
  match cs.getLast? with
  | none => .error "IndexError: children[-1] of empty suite"
  | some last => do
    let k ← kindOf last
    if k = "return_stmt" then do
      checkAssigns cs.dropLast
      match lines with
      | [l] => pure l
      | _ =>
        match lines.getLast? with
        | none => .error "IndexError: lines[-1] of empty suite"
        | some lastLine => do
          let retStr ← asStrLike lastLine
          let whereStr ← pyJoin "\\\\\n" lines.dropLast
          pure (.str (retStr ++ "\\\\\n\\text\x7bwhere\x7d\\\\\n" ++ whereStr))
    else
      .error "AssertionError: the last statement has to be a return"

/-- `Converter.term` after its `visit_children` call: scan into dividend
and divisor lists, then render. -/
def termRule (fs : List Frag) : Except String Frag := do
  let (dividend, divisor) ← termScan false false [] [] fs
  termRender dividend divisor

/-- `Converter.arith_expr` after its `visit_children` call. -/
def arithRule (fs : List Frag) : Except String Frag := do
  pure (.str (← arithFold false "" fs))

/-- `Converter.comparison` after its `visit_children` call. -/
def compRule (fs : List Frag) : Except String Frag := do
  pure (.str (← compFold false "" fs))

mutual

/-- The `Converter.visit` dispatch of the source, one branch per method of
the `Converter` class, dispatching on the node's rule name exactly as
lark's `Interpreter` looks up a method named `tree.data`.  A rule name
with no method falls through to `Interpreter.__default__`, which returns
the plain list of visited children.  Errors model the exceptions the
Python code can raise (`assert` failures, `NotImplementedError`,
`KeyError`, unpack `ValueError`, `TypeError` from string operations). -/
def visit : PTree → Except String Frag
  | .token _ _ => .error "visit called on a Token"
  | .phNone => .error "visit called on None"
  | .node d cs =>
    match d with
    | "file_input" => do unpack1 (← visitChildren cs)
    | "eval_input" => do unpack1 (← visitChildren cs)
    | "expr_stmt" => do unpack1 (← visitChildren cs)
    | "funcdef" => do
      match (← visitChildren cs) with
      | [nm, params, _returnType, st] => do
        let elems ← pyIter params
        let ps ← pyJoin ", " (elems.filter pyTruthy)
        pure (.str (nm.toStr ++ "(" ++ ps ++ ") = " ++ st.toStr))
      | _ => .error "ValueError: unpack"
    | "paramvalue" => do
      match (← visitChildren cs) with
      | [typedparam, _defaultVal] => pure typedparam
      | _ => .error "ValueError: unpack"
    | "typedparam" => do
      match (← visitChildren cs) with
      | [nm, _paramType] => pure nm
      | _ => .error "ValueError: unpack"
    | "assign_stmt" => do unpack1 (← visitChildren cs)
    | "assign" => do
      match (← visitChildren cs) with
      | [nm, value] => pure (.str (nm.toStr ++ " = " ++ value.toStr))
      | _ => .error "ValueError: unpack"
    | "suite" => do
      suiteRule cs (← visitChildren cs)
    | "return_stmt" => do unpack1 (← visitChildren cs)
    | "test" => do
      match (← visitChildren cs) with
      | [optionA, condition, optionB] =>
        pure (.str ("\n\\begin\x7bcases\x7d\n  " ++ optionA.toStr ++
          " & \\text\x7bif \x7d " ++ condition.toStr ++ " \\\\\n  " ++
          optionB.toStr ++ " & \\text\x7botherwise\x7d\n\\end\x7bcases\x7d\n"))
      | _ => .error "ValueError: unpack"
    | "funccall" => do
      match (← visitChildren cs) with
      | [v, args] => pure (.str (v.toStr ++ "(" ++ args.toStr ++ ")"))
      | _ => .error "ValueError: unpack"
    | "arguments" => do
      let args ← visitChildren cs
      pure (.str (← pyJoin ",\\ " args))
    | "argvalue" => do
      match (← visitChildren cs) with
      | [_argname, value] => pure value
      | _ => .error "ValueError: unpack"
    | "lambdef" => do
      match (← visitChildren cs) with
      | [params, expr] => do
        let elems ← pyIter params
        let ps ← pyJoin ",\\ " (elems.filter pyTruthy)
        pure (.str ("(" ++ ps ++ ") \\rightarrow " ++ expr.toStr))
      | _ => .error "ValueError: unpack"
    | "testlist_tuple" => do
      match (← visitChildren cs) with
      | [v] => pure (.str ("\\left(" ++ v.toStr ++ ",\\right)"))
      | values => pure (.str ("\\left(" ++ (← pyJoin ",\\ " values) ++ "\\right)"))
    | "tuple" => do
      match (← visitChildren cs) with
      | [v] => pure (.str ("\\left(" ++ v.toStr ++ ",\\right)"))
      | values => pure (.str ("\\left(" ++ (← pyJoin ",\\ " values) ++ "\\right)"))
    | "set" => do
      let elements ← visitChildren cs
      pure (.str ("\\left\\\x7b" ++ (← pyJoin ",\\ " elements) ++ "\\right\\\x7d"))
    | "term" => do
      termRule (← visitChildren cs)
    | "arith_expr" => do
      arithRule (← visitChildren cs)
    | "power" => do
      match (← visitChildren cs) with
      | [base, exponent] =>
        pure (.str ("\x7b" ++ (bracketize base).toStr ++ "\x7d^\x7b" ++
          exponent.toStr ++ "\x7d"))
      | _ => .error "ValueError: unpack"
    | "shift_expr" => pure (.str "[shift_expr]")
    | "comparison" => do
      compRule (← visitChildren cs)
    | "ellipsis" => pure (.str "...")
    | "var" =>
      match cs with
      | [.token ty v] => pure (.tok ty v)
      | _ => .error "ValueError: unpack"
    | "number" =>
      match cs with
      | [.token ty v] => pure (.tok ty v)
      | _ => .error "ValueError: unpack"
    | "string" =>
      match cs with
      | [.token _ v] => pure (.str ("\\text\x7b" ++ v ++ "\x7d"))
      | _ => .error "ValueError: unpack"
    | _ => do
      -- `Interpreter.__getattr__` falls back to `__default__`,
      -- which returns the list of visited children.
      pure (.list (← visitChildren cs))

/-- lark's `Interpreter.visit_children`: visit each `Tree` child, pass a
`Token` or `None` child through unchanged. -/
def visitChildren : List PTree → Except String (List Frag)
  | [] => pure []
  | .token ty v :: rest => do
    pure (.tok ty v :: (← visitChildren rest))
  | .phNone :: rest => do
    pure (.pyNone :: (← visitChildren rest))
  | .node d cs :: rest => do
    let f ← visit (.node d cs)
    pure (f :: (← visitChildren rest))

end

/-- An input value of the public `py2math` operation.  A `sourced` value
is one for which `inspect.getsource` succeeds and the external parser
turns the source text into the given tree; an `unsourced` value is one for
which `inspect.getsource` raises `TypeError` (not a function, class or
code-bearing object), carrying `str(obj)`. -/
inductive PyObj where
  | pylist (xs : List PyObj)
  | pytuple (xs : List PyObj)
  | pyset (xs : List PyObj)
  | ellipsisObj
  | sourced (t : PTree)
  | unsourced (txt : String)

mutual

/-- The public `py2math` function: containers recurse element-wise inside
the bracket pair selected by `{list: '[]', tuple: '()', set: '{}'}` with
`f'\left{b1}' + ', '.join(...) + f'\right{b2}'`; `Ellipsis` becomes
`'...'`; otherwise the parsed source is visited by the Converter (a
`sourced` value), or `str(obj)` is returned when `inspect.getsource`
raises `TypeError` (an `unsourced` value). -/
def py2math : PyObj → Except String String
  | .pylist xs => do
    pure ("\\left[" ++ String.intercalate ", " (← py2mathAll xs) ++ "\\right]")
  | .pytuple xs => do
    pure ("\\left(" ++ String.intercalate ", " (← py2mathAll xs) ++ "\\right)")
  | .pyset xs => do
    pure ("\\left\x7b" ++ String.intercalate ", " (← py2mathAll xs) ++ "\\right\x7d")
  | .ellipsisObj => pure "..."
  | .sourced t => do
    let f ← visit t
    pure f.toStr
  | .unsourced txt => pure txt

/-- Element-wise recursion of `py2math` over a container's items (the
generator inside `', '.join(py2math(x) for x in obj)`). -/
def py2mathAll : List PyObj → Except String (List String)
  | [] => pure []
  | x :: rest => do
    pure ((← py2math x) :: (← py2mathAll rest))

end

/-- A `var` node (`NAME -> var` in the python grammar): one NAME token. -/
def varN (s : String) : PTree := .node "var" [.token "NAME" s]

/-- A `number` node holding one decimal-literal token. -/
def numN (s : String) : PTree := .node "number" [.token "DEC_NUMBER" s]

/-- `return e` — a `return_stmt` node with the expression child. -/
def retN (e : PTree) : PTree := .node "return_stmt" [e]

/-- `nm = e` as parsed: an `assign_stmt` node wrapping an `assign` node. -/
def assignN (nm : String) (e : PTree) : PTree :=
  .node "assign_stmt" [.node "assign" [varN nm, e]]

/-- `def nm(params): body` — children NAME token, `parameters` node
(plain parameters inline to bare NAME tokens), the `None` placeholder for
the absent return-type annotation, and the `suite` of body statements. -/
def funcdefN (nm : String) (params : List String) (body : List PTree) : PTree :=
  .node "funcdef" [.token "NAME" nm,
    .node "parameters" (params.map (PTree.token "NAME")),
    .phNone, .node "suite" body]

/-- A whole-module tree (`file_input`) with one statement, as
`parser.parse(code)` yields for the source text of one function. -/
def fileN (t : PTree) : PTree := .node "file_input" [t]

/-- Parse tree of `def f(x): return x + 1`. -/
def srcAddOne : PTree :=
  fileN (funcdefN "f" ["x"]
    [retN (.node "arith_expr" [varN "x", .token "PLUS" "+", numN "1"])])

/-- Parse tree of `def f(x, y): return x / y`. -/
def srcDivXY : PTree :=
  fileN (funcdefN "f" ["x", "y"]
    [retN (.node "term" [varN "x", .token "SLASH" "/", varN "y"])])

/-- Parse tree of `def f(x): return x if x > 0 else -x`.  The ternary is a
`test` node; `x > 0` is a `comparison` with a kept `comp_op` subtree; the
unary negation `-x` is a `factor` node (kept operator token followed by
the operand), a node kind the Converter has no method for. -/
def srcTernary : PTree :=
  fileN (funcdefN "f" ["x"]
    [retN (.node "test"
      [varN "x",
       .node "comparison" [varN "x", .node "comp_op" [.token "MORETHAN" ">"], numN "0"],
       .node "factor" [.token "MINUS" "-", varN "x"]])])

/-- One multiplicative-chain operator/operand step used to state the
general `term` theorem: the operator token (terminal type and text), the
operand subtree, and the operand's visit result. -/
structure TermArm where
  opTy : String
  opVal : String
  arg : PTree
  res : Frag

/-- The alternating child list of a `term` node after the first operand:
operator token, operand, operator token, operand, ... -/
def armsChildren : List TermArm → List PTree
  | [] => []
  | a :: rest => .token a.opTy a.opVal :: a.arg :: armsChildren rest

/-- The full child list of a `term` (or `arith_expr`) node with first
operand `x0` followed by the given operator/operand steps. -/
def termChildren (x0 : PTree) (arms : List TermArm) : List PTree :=
  x0 :: armsChildren arms

/-- The partition described by the specification sentence for `term`: walk
the operator/operand steps left to right with a currently-dividing flag
that starts false, is set true by `/` and set false again by `*`, and
append each operand to the divisor list when the flag (as just set by the
operator before it) is true, else to the dividend list.  The first operand
precedes every operator and lands in the dividend list. -/
def claimPartitionAux : Bool → List Frag → List Frag → List (String × Frag) →
    List Frag × List Frag
  | _, dividend, divisor, [] => (dividend, divisor)
  | _, dividend, divisor, (op, x) :: rest =>
    let dividing := op = "/"
    claimPartitionAux dividing
      (if dividing then dividend else dividend ++ [x])
      (if dividing then divisor ++ [x] else divisor) rest

/-- The claimed partition of a full operand sequence: the first operand is
collected under the initial (false) flag. -/
def claimPartition (first : Frag) (ps : List (String × Frag)) :
    List Frag × List Frag :=
  claimPartitionAux false [first] [] ps

/-- Strings joined by a separator (as in Python's `sep.join` on a list of
strings). -/
def joinSep (sep : String) : List String → String
  | [] => ""
  | [x] => x
  | x :: y :: rest => x ++ sep ++ joinSep sep (y :: rest)

/-- The rendering described by the claim for `term`: when the divisor list
is empty, the dividend operands joined with ` \cdot ` (each operand
bracketized when its list has more than one element); otherwise the
two-part fraction `\frac{dividend}{divisor}`. -/
def claimTermRender (dividend divisor : List Frag) : String :=
  let joinPart := fun (l : List Frag) =>
    joinSep " \\cdot "
      ((if 1 < l.length then l.map bracketize else l).map Frag.toStr)
  if divisor.isEmpty then joinPart dividend
  else "\\frac\x7b" ++ joinPart dividend ++ "\x7d\x7b" ++ joinPart divisor ++ "\x7d"

/-- The rendering described by the claim for `arith_expr`: the bracketized
operands concatenated in order, interleaved with the literal operator
symbols. -/
def claimArithRender (x0 : Frag) : List (String × Frag) → String
  | [] => (bracketize x0).toStr
  | (op, x) :: rest => (bracketize x0).toStr ++ op ++ claimArithRender x rest

/-- The visited-value counterpart of `armsChildren`: operator token value,
operand result, operator token value, operand result, ... (what
`visit_children` produces for the alternating tail of a chain node). -/
def armsFrags : List TermArm → List Frag
  | [] => []
  | a :: rest => .tok a.opTy a.opVal :: a.res :: armsFrags rest

/-- One comparison-chain step: the kept `comp_op` subtree's tokens
(terminal type and text — two tokens for the spellings `not in` and
`is not`), the operand subtree, and the operand's visit result. -/
structure CompArm where
  opToks : List (String × String)
  arg : PTree
  res : Frag

/-- The operator spelling of a comparison step: the `comp_op` token texts
joined by one space (`' '.join(x)` of the visited `comp_op` child). -/
def CompArm.key (a : CompArm) : String :=
  joinSep " " (a.opToks.map Prod.snd)

/-- The alternating child list of a `comparison` node after the first
operand: `comp_op` node, operand, `comp_op` node, operand, ... -/
def compArmsChildren : List CompArm → List PTree
  | [] => []
  | a :: rest =>
    .node "comp_op" (a.opToks.map fun p => .token p.1 p.2) :: a.arg ::
      compArmsChildren rest

/-- The full child list of a `comparison` node with first operand `x0`. -/
def compChildren (x0 : PTree) (arms : List CompArm) : List PTree :=
  x0 :: compArmsChildren arms

/-- The visited-value counterpart of `compArmsChildren`. -/
def compArmsFrags : List CompArm → List Frag
  | [] => []
  | a :: rest =>
    .list (a.opToks.map fun p => .tok p.1 p.2) :: a.res :: compArmsFrags rest

/-- The rendering described by the claim for a comparison chain: each
operand bracketized, each operator spelling translated through the fixed
table, concatenated in order (`none` when some spelling is not in the
table). -/
def claimCompRender (x0 : Frag) : List (String × Frag) → Option String
  | [] => some (bracketize x0).toStr
  | (op, x) :: rest =>
    match compOpTable.lookup op, claimCompRender x rest with
    | some v, some r => some ((bracketize x0).toStr ++ v ++ r)
    | _, _ => none

@[simp] theorem exceptBind_ok {α β : Type} (a : α) (f : α → Except String β) :
    (Except.ok a >>= f) = f a := rfl

@[simp] theorem exceptBind_error {α β : Type} (e : String) (f : α → Except String β) :
    ((Except.error e : Except String α) >>= f) = Except.error e := rfl

@[simp] theorem visit_token (ty v : String) :
    visit (.token ty v) = .error "visit called on a Token" := rfl

@[simp] theorem visit_phNone :
    visit .phNone = .error "visit called on None" := rfl

@[simp] theorem visitChildren_nil : visitChildren [] = .ok [] := rfl

@[simp] theorem visitChildren_cons_token (ty v : String) (rest : List PTree) :
    visitChildren (.token ty v :: rest) =
      (do
        let fs ← visitChildren rest
        pure (Frag.tok ty v :: fs)) := rfl

@[simp] theorem visitChildren_cons_phNone (rest : List PTree) :
    visitChildren (.phNone :: rest) =
      (do
        let fs ← visitChildren rest
        pure (Frag.pyNone :: fs)) := rfl

@[simp] theorem visitChildren_cons_node (d : String) (cs : List PTree) (rest : List PTree) :
    visitChildren (.node d cs :: rest) =
      (do
        let f ← visit (.node d cs)
        let fs ← visitChildren rest
        pure (f :: fs)) := rfl

theorem visitChildren_cons_of_visit {c : PTree} {f : Frag} (rest : List PTree)
    (hv : visit c = .ok f) :
    visitChildren (c :: rest) =
      (do
        let fs ← visitChildren rest
        pure (f :: fs)) := by
  cases c with
  | token ty v => simp at hv
  | phNone => simp at hv
  | node d cs => rw [visitChildren_cons_node, hv, exceptBind_ok]

theorem asStrLike_of_isStrLike {f : Frag} (h : f.isStrLike = true) :
    asStrLike f = .ok f.toStr := by
  cases f <;> simp_all [Frag.isStrLike, asStrLike, Frag.toStr, pure, Except.pure]

theorem bracketize_isStrLike (f : Frag) : (bracketize f).isStrLike = true := by
  cases f <;> simp [bracketize, Frag.isStrLike]

theorem pyJoin_of_strLike (sep : String) :
    ∀ (l : List Frag), (∀ f ∈ l, f.isStrLike = true) →
    pyJoin sep l = .ok (joinSep sep (l.map Frag.toStr))
  | [], _ => rfl
  | [x], h => by
    simp only [pyJoin, joinSep, List.map]
    exact asStrLike_of_isStrLike (h x (by simp))
  | x :: y :: rest, h => by
    have hx := asStrLike_of_isStrLike (h x (by simp))
    have ih := pyJoin_of_strLike sep (y :: rest) (fun f hf => h f (by simp [hf]))
    simp only [pyJoin, hx, exceptBind_ok, ih, joinSep, List.map]
    rfl

/-- C6: `bracketize` is a pure function that returns an atomic fragment (a
lark `Token`) completely unchanged — zero added bracket pairs — and wraps
every non-atomic fragment `x` in exactly one auto-sized parenthesis pair,
returning `\left(` ++ x ++ `\right)`. -/
theorem bracketize_pure :
    (∀ ty v, bracketize (.tok ty v) = .tok ty v) ∧
    (∀ s, bracketize (.str s) = .str ("\\left(" ++ s ++ "\\right)")) :=
  ⟨fun _ _ => rfl, fun _ => rfl⟩

/-- C8: for a value that is not a container, not the ellipsis sentinel,
and for which source extraction fails with `TypeError` (not a function,
class or code-bearing object), `py2math` does not raise: it returns the
value's plain textual representation `str(obj)`. -/
theorem source_unavailable_fallback :
    ∀ s, py2math (.unsourced s) = .ok s :=
  fun _ => rfl

/-- C10: a `string` node renders as `\text{` ++ raw token ++ `}`, where
the raw token still carries the source quote characters, so the quotes
appear inside the text macro (e.g. the literal `"abc"` becomes
`\text{"abc"}`). -/
theorem string_raw_token :
    (∀ ty v, visit (.node "string" [.token ty v]) =
      .ok (.str ("\\text\x7b" ++ v ++ "\x7d"))) ∧
    visit (.node "string" [.token "STRING" "\"abc\""]) =
      .ok (.str "\\text\x7b\"abc\"\x7d") :=
  ⟨fun _ _ => rfl, rfl⟩

/-- C3 counterexample: converting `def f(x): return x + 1` yields
`f(x) = x+1` — the operands and the operator symbol are concatenated with
no surrounding spaces — which is not the claimed string `f(x) = x + 1`. -/
theorem arith_concat_counterexample :
    py2math (.sourced srcAddOne) = .ok "f(x) = x+1" ∧
    "f(x) = x+1" ≠ "f(x) = x + 1" :=
  ⟨rfl, by decide⟩

/-- C4: evaluating the converter on `def f(x): return x if x > 0 else -x`.
The ternary does become a two-row cases block with row 1 `x` labeled
`if x > 0`, but the unary-minus operand `-x` is a `factor` node, a kind
`Converter` has no method for, so lark's `Interpreter.__default__` returns
the list of visited children and the rendered row 2 is that Python list's
textual representation, not `-x`. -/
theorem ternary_unary_minus_eval :
    py2math (.sourced srcTernary) =
      .ok ("f(x) = \n\\begin\x7bcases\x7d\n  x & \\text\x7bif \x7d x > 0 \\\\\n  " ++
        "[Token(\x27MINUS\x27, \x27-\x27), Token(\x27NAME\x27, \x27x\x27)]" ++
        " & \\text\x7botherwise\x7d\n\\end\x7bcases\x7d\n") ∧
    ("[Token(\x27MINUS\x27, \x27-\x27), Token(\x27NAME\x27, \x27x\x27)]" : String) ≠ "-x" :=
  ⟨rfl, by decide⟩

/-- C5 counterexample: the one-element tuple `(5,)` passed as the
source_value renders as `\left(5\right)` — no comma appears anywhere in
the output, in particular no trailing comma before the closing bracket. -/
theorem tuple_input_no_comma_counterexample :
    py2math (.pytuple [.unsourced "5"]) = .ok "\\left(5\\right)" ∧
    ',' ∉ "\\left(5\\right)".data :=
  ⟨rfl, by decide⟩

/-- C5 amended: a one-element tuple passed as the source_value renders
without a trailing comma, exactly like a one-element list or set up to the
bracket pair; the trailing comma exists only in the Converter's rule for a
one-element `tuple` literal inside parsed source code. -/
theorem one_element_container_rendering :
    (∀ s, py2math (.pytuple [.unsourced s]) = .ok ("\\left(" ++ s ++ "\\right)")) ∧
    (∀ s, py2math (.pylist [.unsourced s]) = .ok ("\\left[" ++ s ++ "\\right]")) ∧
    (∀ s, py2math (.pyset [.unsourced s]) = .ok ("\\left\x7b" ++ s ++ "\\right\x7d")) ∧
    (∀ ty v, visit (.node "tuple" [.node "number" [.token ty v]]) =
      .ok (.str ("\\left(" ++ v ++ ",\\right)"))) :=
  ⟨fun _ => rfl, fun _ => rfl, fun _ => rfl, fun _ _ => rfl⟩

theorem visit_suite (cs : List PTree) :
    visit (.node "suite" cs) = visitChildren cs >>= suiteRule cs := rfl

theorem visit_term_node (cs : List PTree) :
    visit (.node "term" cs) = visitChildren cs >>= termRule := rfl

theorem visit_arith_node (cs : List PTree) :
    visit (.node "arith_expr" cs) = visitChildren cs >>= arithRule := rfl

theorem visit_comparison_node (cs : List PTree) :
    visit (.node "comparison" cs) = visitChildren cs >>= compRule := rfl

theorem visit_comp_op (cs : List PTree) :
    visit (.node "comp_op" cs) = visitChildren cs >>= fun fs => pure (.list fs) := rfl

theorem visitChildren_append :
    ∀ (l1 l2 : List PTree),
    visitChildren (l1 ++ l2) =
      (do
        let a ← visitChildren l1
        let b ← visitChildren l2
        pure (a ++ b))
  | [], l2 => by cases h : visitChildren l2 <;> simp [h]
  | .token ty v :: t, l2 => by
    have ih := visitChildren_append t l2
    simp only [List.cons_append, visitChildren_cons_token, ih]
    cases visitChildren t <;> cases visitChildren l2 <;> simp
  | .phNone :: t, l2 => by
    have ih := visitChildren_append t l2
    simp only [List.cons_append, visitChildren_cons_phNone, ih]
    cases visitChildren t <;> cases visitChildren l2 <;> simp
  | .node d cs :: t, l2 => by
    have ih := visitChildren_append t l2
    simp only [List.cons_append, visitChildren_cons_node, ih]
    cases visit (.node d cs) <;> cases visitChildren t <;> cases visitChildren l2 <;> simp

theorem checkAssigns_ok :
    ∀ (l : List PTree), (∀ x ∈ l, kindOf x = .ok "assign_stmt") →
    checkAssigns l = .ok ()
  | [], _ => rfl
  | c :: rest, h => by
    have hc := h c (by simp)
    have ih := checkAssigns_ok rest (fun x hx => h x (by simp [hx]))
    simp [checkAssigns, hc, ih]

theorem checkAssigns_error :
    ∀ (l : List PTree), (∃ x ∈ l, kindOf x ≠ .ok "assign_stmt") →
    ∃ e, checkAssigns l = .error e
  | [], h => by rcases h with ⟨x, hx, _⟩; cases hx
  | c :: rest, h => by
    rcases h with ⟨x, hx, hk⟩
    cases c with
    | token ty v =>
      exact ⟨"AttributeError: Token has no attribute data",
        by simp [checkAssigns, kindOf]⟩
    | phNone =>
      exact ⟨"AttributeError: NoneType has no attribute data",
        by simp [checkAssigns, kindOf]⟩
    | node d cs =>
      by_cases hd : d = "assign_stmt"
      · subst hd
        rcases List.mem_cons.mp hx with rfl | hx2
        · exact absurd (by simp [kindOf, pure, Except.pure]) hk
        · rcases checkAssigns_error rest ⟨x, hx2, hk⟩ with ⟨e, he⟩
          exact ⟨e, by simp [checkAssigns, kindOf, pure, Except.pure, he]⟩
      · exact ⟨"AssertionError: only assignments are supported before the return",
          by simp [checkAssigns, kindOf, pure, Except.pure, hd]⟩

/-- C2: a suite whose final raw child is not a `return_stmt` node, or that
has a child other than an `assign_stmt` node before the final one, never
produces a rendered value: the conversion of that suite fails with an
error and no partial notation is returned. -/
theorem suite_invariant_enforced :
    ∀ (cs : List PTree) (v : Frag),
      ((∀ last, cs.getLast? = some last → kindOf last ≠ .ok "return_stmt") ∨
        (∃ x ∈ cs.dropLast, kindOf x ≠ .ok "assign_stmt")) →
      visit (.node "suite" cs) ≠ .ok v := by
  intro cs v hbad hok
  rw [visit_suite] at hok
  cases hv : visitChildren cs with
  | error e => rw [hv] at hok; exact absurd hok (by simp)
  | ok lines =>
    rw [hv, exceptBind_ok] at hok
    cases hl : cs.getLast? with
    | none => simp [suiteRule, hl] at hok
    | some last =>
      rcases hbad with h1 | h2
      · have hne := h1 last hl
        cases hk : kindOf last with
        | error e => simp [suiteRule, hl, hk] at hok
        | ok k =>
          have hkn : ¬(k = "return_stmt") := fun h => hne (by rw [hk, h])
          simp [suiteRule, hl, hk, hkn] at hok
      · rcases checkAssigns_error _ h2 with ⟨e, he⟩
        cases hk : kindOf last with
        | error e2 => simp [suiteRule, hl, hk] at hok
        | ok k =>
          by_cases hkr : k = "return_stmt"
          · subst hkr
            simp [suiteRule, hl, hk, he] at hok
          · simp [suiteRule, hl, hk, hkr] at hok

/-- Witness for C2 at a concrete input: the one-statement body `x` (a bare
expression statement, not a return) is rejected. -/
theorem suite_invariant_enforced_witness :
    visit (.node "suite" [.node "expr_stmt" [varN "x"]]) ≠ .ok (.tok "NAME" "x") := by
  refine suite_invariant_enforced _ _ (Or.inl ?_)
  intro last hl
  simp at hl
  rw [← hl]
  simp [kindOf, pure, Except.pure]

@[simp] theorem Frag.toStr_str (s : String) : Frag.toStr (.str s) = s := rfl

@[simp] theorem Frag.toStr_tok (ty v : String) : Frag.toStr (.tok ty v) = v := rfl

theorem visitChildren_length :
    ∀ {l : List PTree} {fs : List Frag}, visitChildren l = .ok fs →
    fs.length = l.length := by
  intro l
  induction l with
  | nil => intro fs h; simp at h; simp [← h]
  | cons c rest ih =>
    intro fs h
    cases c with
    | token ty v =>
      rw [visitChildren_cons_token] at h
      cases hr : visitChildren rest with
      | error e => rw [hr] at h; simp [pure, Except.pure] at h
      | ok gs =>
        rw [hr] at h
        simp only [exceptBind_ok, pure, Except.pure, Except.ok.injEq] at h
        simp [← h, ih hr]
    | phNone =>
      rw [visitChildren_cons_phNone] at h
      cases hr : visitChildren rest with
      | error e => rw [hr] at h; simp [pure, Except.pure] at h
      | ok gs =>
        rw [hr] at h
        simp only [exceptBind_ok, pure, Except.pure, Except.ok.injEq] at h
        simp [← h, ih hr]
    | node d cs =>
      rw [visitChildren_cons_node] at h
      cases hv : visit (.node d cs) with
      | error e => rw [hv] at h; simp [pure, Except.pure] at h
      | ok f =>
        rw [hv] at h
        cases hr : visitChildren rest with
        | error e => rw [hr] at h; simp [pure, Except.pure] at h
        | ok gs =>
          rw [hr] at h
          simp only [exceptBind_ok, pure, Except.pure, Except.ok.injEq] at h
          simp [← h, ih hr]

/-- C9: a suite of N>1 statements — assignments followed by a final return
— renders as the rendered return value first, then a line break and the
`\text{where}` label, then the rendered assignments in their original
order joined by line breaks; a suite with exactly one statement renders as
just the return value with no where clause. -/
theorem suite_where_rendering :
    (∀ (stmts : List PTree) (ret : PTree) (ts : List String) (retFrag : Frag)
        (r : String),
      stmts ≠ [] →
      (∀ x ∈ stmts, kindOf x = .ok "assign_stmt") →
      kindOf ret = .ok "return_stmt" →
      visitChildren stmts = .ok (ts.map Frag.str) →
      visit ret = .ok retFrag →
      asStrLike retFrag = .ok r →
      visit (.node "suite" (stmts ++ [ret])) =
        .ok (.str (r ++ "\\\\\n\\text\x7bwhere\x7d\\\\\n" ++ joinSep "\\\\\n" ts))) ∧
    (∀ (ret : PTree) (retFrag : Frag),
      kindOf ret = .ok "return_stmt" →
      visit ret = .ok retFrag →
      visit (.node "suite" [ret]) = .ok retFrag) := by
  constructor
  · intro stmts ret ts retFrag r hne hassign hret hvs hvr hstr
    have hts : ts ≠ [] := by
      intro h
      subst h
      have := visitChildren_length hvs
      simp at this
      exact hne (List.eq_nil_of_length_eq_zero this.symm)
    rw [visit_suite, visitChildren_append, hvs, exceptBind_ok,
      visitChildren_cons_of_visit [] hvr, visitChildren_nil]
    have h1 : (stmts ++ [ret]).getLast? = some ret := List.getLast?_concat _
    have h2 : (stmts ++ [ret]).dropLast = stmts := List.dropLast_concat
    have h3 : checkAssigns stmts = .ok () := checkAssigns_ok _ hassign
    have hmap : ∀ (l : List String), List.map Frag.toStr (List.map Frag.str l) = l := by
      intro l
      induction l with
      | nil => rfl
      | cons a l2 ih => simp [ih]
    have h6 : pyJoin "\\\\\n" (ts.map Frag.str) = .ok (joinSep "\\\\\n" ts) := by
      have hj := pyJoin_of_strLike "\\\\\n" (ts.map Frag.str) (by
        intro f hf
        rcases List.mem_map.mp hf with ⟨u, _, rfl⟩
        rfl)
      rwa [hmap] at hj
    rcases ts with _ | ⟨t, ts2⟩
    · exact absurd rfl hts
    · rcases ts2 with _ | ⟨t2, ts3⟩
      · simp only [List.map_cons, List.map_nil] at h6
        simp [suiteRule, h1, h2, h3, hret, hstr, h6, pure, Except.pure, joinSep]
      · simp only [List.map_cons] at h6
        have hg : (Frag.str t2 :: (List.map Frag.str ts3 ++ [retFrag])).getLast? =
            some retFrag := by
          rw [← List.cons_append]
          exact List.getLast?_concat _
        have hd : (Frag.str t2 :: (List.map Frag.str ts3 ++ [retFrag])).dropLast =
            Frag.str t2 :: List.map Frag.str ts3 := by
          rw [← List.cons_append]
          exact List.dropLast_concat
        simp [suiteRule, h1, h2, h3, hret, hstr, hg, hd, h6, pure, Except.pure]
  · intro ret retFrag hret hvr
    rw [visit_suite, visitChildren_cons_of_visit [] hvr, visitChildren_nil]
    simp [suiteRule, hret, checkAssigns, pure, Except.pure]

/-- Witness for C9 at a concrete input: the body `a = 1; b = 2; return a`
renders as `a`, the where label, then `a = 1` and `b = 2` in order. -/
theorem suite_where_rendering_witness :
    visit (.node "suite"
      [assignN "a" (numN "1"), assignN "b" (numN "2"), retN (varN "a")]) =
      .ok (.str ("a" ++ "\\\\\n\\text\x7bwhere\x7d\\\\\n" ++
        joinSep "\\\\\n" ["a = 1", "b = 2"])) := by
  have h := suite_where_rendering.1
    [assignN "a" (numN "1"), assignN "b" (numN "2")]
    (retN (varN "a")) ["a = 1", "b = 2"] (.tok "NAME" "a") "a"
    (by simp)
    (by
      intro x hx
      rcases List.mem_cons.mp hx with rfl | hx2
      · rfl
      rcases List.mem_cons.mp hx2 with rfl | hx3
      · rfl
      cases hx3)
    rfl rfl rfl rfl
  exact h

theorem visitChildren_armsChildren :
    ∀ (arms : List TermArm), (∀ a ∈ arms, visit a.arg = .ok a.res) →
    visitChildren (armsChildren arms) = .ok (armsFrags arms)
  | [], _ => rfl
  | a :: rest, h => by
    have ha := h a (by simp)
    have ih := visitChildren_armsChildren rest (fun b hb => h b (by simp [hb]))
    rw [armsChildren, visitChildren_cons_token, visitChildren_cons_of_visit _ ha, ih]
    simp [armsFrags, pure, Except.pure]

theorem visitChildren_termChildren (x0 : PTree) (arms : List TermArm) (f0 : Frag)
    (h0 : visit x0 = .ok f0)
    (h : ∀ a ∈ arms, visit a.arg = .ok a.res) :
    visitChildren (termChildren x0 arms) = .ok (f0 :: armsFrags arms) := by
  rw [termChildren, visitChildren_cons_of_visit _ h0, visitChildren_armsChildren arms h]
  rfl

theorem arithFold_claim :
    ∀ (arms : List TermArm) (acc : String) (f0 : Frag),
    arithFold false acc (f0 :: armsFrags arms) =
      .ok (acc ++ claimArithRender f0 (arms.map fun a => (a.opVal, a.res)))
  | [], acc, f0 => by
    simp [arithFold, armsFrags, claimArithRender, pure, Except.pure]
  | a :: rest, acc, f0 => by
    have ih := arithFold_claim rest (acc ++ (bracketize f0).toStr ++ a.opVal) a.res
    have hstep : arithFold false acc (f0 :: armsFrags (a :: rest)) =
        arithFold false (acc ++ (bracketize f0).toStr ++ a.opVal)
          (a.res :: armsFrags rest) := rfl
    rw [hstep, ih]
    simp [claimArithRender, String.append_assoc]

/-- C3 (amended): an additive expression renders as the bracketized
operands concatenated in order, interleaved with the literal `+`/`-`
operator token texts and nothing else (no surrounding spaces); converting
`def f(x): return x + 1` therefore yields exactly `f(x) = x+1`. -/
theorem arith_expr_rendering :
    (∀ (x0 : PTree) (arms : List TermArm) (f0 : Frag),
      visit x0 = .ok f0 →
      (∀ a ∈ arms, visit a.arg = .ok a.res) →
      (∀ a ∈ arms, a.opVal = "+" ∨ a.opVal = "-") →
      visit (.node "arith_expr" (termChildren x0 arms)) =
        .ok (.str (claimArithRender f0 (arms.map fun a => (a.opVal, a.res))))) ∧
    py2math (.sourced srcAddOne) = .ok "f(x) = x+1" := by
  constructor
  · intro x0 arms f0 h0 h _hops
    rw [visit_arith_node, visitChildren_termChildren x0 arms f0 h0 h, exceptBind_ok]
    simp only [arithRule]
    rw [arithFold_claim arms "" f0]
    simp [pure, Except.pure]
  · rfl

/-- Witness for the general part of the amended C3, at the operand/operator
sequence of `x + 1`. -/
theorem arith_expr_rendering_witness :
    visit (.node "arith_expr" (termChildren (varN "x")
      [⟨"PLUS", "+", numN "1", .tok "DEC_NUMBER" "1"⟩])) =
      .ok (.str (claimArithRender (.tok "NAME" "x")
        [("+", .tok "DEC_NUMBER" "1")])) := by
  have h := arith_expr_rendering.1 (varN "x")
    [⟨"PLUS", "+", numN "1", .tok "DEC_NUMBER" "1"⟩] (.tok "NAME" "x") rfl
    (by
      intro a ha
      rcases List.mem_singleton.mp ha with rfl
      rfl)
    (by
      intro a ha
      rcases List.mem_singleton.mp ha with rfl
      exact Or.inl rfl)
  exact h

theorem visitChildren_tokens :
    ∀ (l : List (String × String)),
    visitChildren (l.map fun p => .token p.1 p.2) =
      .ok (l.map fun p => Frag.tok p.1 p.2)
  | [] => rfl
  | p :: rest => by
    have ih := visitChildren_tokens rest
    simp only [List.map_cons, visitChildren_cons_token, ih, exceptBind_ok]
    rfl

theorem pyJoinSpace_toks (l : List (String × String)) :
    pyJoinSpace (.list (l.map fun p => .tok p.1 p.2)) =
      .ok (joinSep " " (l.map Prod.snd)) := by
  have hj := pyJoin_of_strLike " " (l.map fun p => .tok p.1 p.2) (by
    intro f hf
    rcases List.mem_map.mp hf with ⟨p, _, rfl⟩
    rfl)
  have hmap : List.map Frag.toStr (l.map fun p => Frag.tok p.1 p.2) = l.map Prod.snd := by
    induction l with
    | nil => rfl
    | cons p rest ih => simp [ih]
  rw [show pyJoinSpace (.list (l.map fun p => .tok p.1 p.2)) =
    pyJoin " " (l.map fun p => .tok p.1 p.2) from rfl, hj, hmap]

theorem visitChildren_compArmsChildren :
    ∀ (arms : List CompArm), (∀ a ∈ arms, visit a.arg = .ok a.res) →
    visitChildren (compArmsChildren arms) = .ok (compArmsFrags arms)
  | [], _ => rfl
  | a :: rest, h => by
    have ha := h a (by simp)
    have ih := visitChildren_compArmsChildren rest (fun b hb => h b (by simp [hb]))
    have hop : visit (.node "comp_op" (a.opToks.map fun p => .token p.1 p.2)) =
        .ok (.list (a.opToks.map fun p => Frag.tok p.1 p.2)) := by
      rw [visit_comp_op, visitChildren_tokens]
      rfl
    rw [compArmsChildren, visitChildren_cons_of_visit _ hop,
      visitChildren_cons_of_visit _ ha, ih]
    rfl

theorem compFold_claim :
    ∀ (arms : List CompArm) (acc : String) (f0 : Frag),
    compFold false acc (f0 :: compArmsFrags arms) =
      (match claimCompRender f0 (arms.map fun a => (a.key, a.res)) with
       | some r => .ok (acc ++ r)
       | none => .error "KeyError: unsupported comparison operator")
  | [], acc, f0 => by
    simp [compFold, compArmsFrags, claimCompRender, pure, Except.pure]
  | a :: rest, acc, f0 => by
    have hkey := pyJoinSpace_toks a.opToks
    have hstep : compFold false acc (f0 :: compArmsFrags (a :: rest)) =
        pyJoinSpace (.list (a.opToks.map fun p => Frag.tok p.1 p.2)) >>=
          (fun key =>
            (match compOpTable.lookup key with
             | some v =>
               compFold false (acc ++ (bracketize f0).toStr ++ v)
                 (a.res :: compArmsFrags rest)
             | none =>
               .error "KeyError: unsupported comparison operator")) := rfl
    rw [hstep, hkey, exceptBind_ok,
      show joinSep " " (List.map Prod.snd a.opToks) = CompArm.key a from rfl]
    cases hlk : compOpTable.lookup (CompArm.key a) with
    | none =>
      simp [claimCompRender, hlk]
    | some v =>
      have ih := compFold_claim rest (acc ++ (bracketize f0).toStr ++ v) a.res
      cases hcr : claimCompRender a.res (rest.map fun b => (b.key, b.res)) with
      | none =>
        dsimp only
        rw [ih, hcr]
        simp [claimCompRender, hlk, hcr]
      | some r =>
        dsimp only
        rw [ih, hcr]
        simp [claimCompRender, hlk, hcr, String.append_assoc]

/-- C7: every comparison operator spelling is translated through the fixed
ten-entry table; a chain renders as the bracketized operands concatenated
in order with the translated operators; a spelling absent from the table
(such as the legacy `<>`) fails the lookup and aborts the conversion with
a `KeyError`. -/
theorem comparison_table_chain :
    (compOpTable.lookup "<" = some " < " ∧
     compOpTable.lookup ">" = some " > " ∧
     compOpTable.lookup "==" = some " = " ∧
     compOpTable.lookup ">=" = some " \\geq " ∧
     compOpTable.lookup "<=" = some " \\leq " ∧
     compOpTable.lookup "!=" = some " \\neq " ∧
     compOpTable.lookup "in" = some " \\in " ∧
     compOpTable.lookup "not in" = some " \\notin " ∧
     compOpTable.lookup "is" = some " \\equiv " ∧
     compOpTable.lookup "is not" = some " \\not\\equiv " ∧
     compOpTable.lookup "<>" = none) ∧
    (∀ (x0 : PTree) (arms : List CompArm) (f0 : Frag) (r : String),
      visit x0 = .ok f0 →
      (∀ a ∈ arms, visit a.arg = .ok a.res) →
      claimCompRender f0 (arms.map fun a => (a.key, a.res)) = some r →
      visit (.node "comparison" (compChildren x0 arms)) = .ok (.str r)) ∧
    (∀ (x0 : PTree) (arms : List CompArm) (f0 : Frag) (v : Frag),
      visit x0 = .ok f0 →
      (∀ a ∈ arms, visit a.arg = .ok a.res) →
      claimCompRender f0 (arms.map fun a => (a.key, a.res)) = none →
      visit (.node "comparison" (compChildren x0 arms)) ≠ .ok v) ∧
    visit (.node "comparison"
      [varN "x", .node "comp_op" [.token "ANON" "<>"], varN "y"]) =
      .error "KeyError: unsupported comparison operator" := by
  refine ⟨⟨rfl, rfl, rfl, rfl, rfl, rfl, rfl, rfl, rfl, rfl, rfl⟩, ?_, ?_, rfl⟩
  · intro x0 arms f0 r h0 h hsome
    have hvc : visitChildren (compChildren x0 arms) = .ok (f0 :: compArmsFrags arms) := by
      rw [compChildren, visitChildren_cons_of_visit _ h0,
        visitChildren_compArmsChildren arms h]
      rfl
    rw [visit_comparison_node, hvc, exceptBind_ok]
    simp only [compRule]
    rw [compFold_claim arms "" f0, hsome]
    simp [pure, Except.pure]
  · intro x0 arms f0 v h0 h hnone
    have hvc : visitChildren (compChildren x0 arms) = .ok (f0 :: compArmsFrags arms) := by
      rw [compChildren, visitChildren_cons_of_visit _ h0,
        visitChildren_compArmsChildren arms h]
      rfl
    rw [visit_comparison_node, hvc, exceptBind_ok]
    simp only [compRule]
    rw [compFold_claim arms "" f0, hnone]
    simp

/-- Witness for C7 at a concrete chain: `x > 0` renders with the table
translation of `>`. -/
theorem comparison_table_chain_witness :
    visit (.node "comparison" (compChildren (varN "x")
      [⟨[("MORETHAN", ">")], numN "0", .tok "DEC_NUMBER" "0"⟩])) =
      .ok (.str "x > 0") := by
  have h := comparison_table_chain.2.1 (varN "x")
    [⟨[("MORETHAN", ">")], numN "0", .tok "DEC_NUMBER" "0"⟩]
    (.tok "NAME" "x") "x > 0" rfl
    (by
      intro a ha
      rcases List.mem_singleton.mp ha with rfl
      rfl)
    rfl
  exact h

theorem termScan_ops :
    ∀ (arms : List TermArm) (dividing : Bool) (dnd dvs : List Frag),
    (∀ a ∈ arms, a.opVal = "*" ∨ a.opVal = "/") →
    termScan true dividing dnd dvs (armsFrags arms) =
      .ok (claimPartitionAux dividing dnd dvs (arms.map fun a => (a.opVal, a.res)))
  | [], dividing, dnd, dvs, _ => by
    simp [armsFrags, termScan, claimPartitionAux, pure, Except.pure]
  | a :: rest, dividing, dnd, dvs, h => by
    obtain ⟨ty, op, arg, res⟩ := a
    have hops : ∀ b ∈ rest, b.opVal = "*" ∨ b.opVal = "/" :=
      fun b hb => h b (by simp [hb])
    rcases h ⟨ty, op, arg, res⟩ (by simp) with h1 | h1 <;> (simp only [] at h1; subst h1)
    · have ih := termScan_ops rest false (dnd ++ [res]) dvs hops
      calc termScan true dividing dnd dvs
            (armsFrags (⟨ty, "*", arg, res⟩ :: rest))
          = termScan true false (dnd ++ [res]) dvs (armsFrags rest) := rfl
        _ = .ok (claimPartitionAux false (dnd ++ [res]) dvs
            (rest.map fun b => (b.opVal, b.res))) := ih
        _ = .ok (claimPartitionAux dividing dnd dvs
            (((⟨ty, "*", arg, res⟩ : TermArm) :: rest).map fun b => (b.opVal, b.res))) := by
          simp [claimPartitionAux]
    · have ih := termScan_ops rest true dnd (dvs ++ [res]) hops
      calc termScan true dividing dnd dvs
            (armsFrags (⟨ty, "/", arg, res⟩ :: rest))
          = termScan true true dnd (dvs ++ [res]) (armsFrags rest) := rfl
        _ = .ok (claimPartitionAux true dnd (dvs ++ [res])
            (rest.map fun b => (b.opVal, b.res))) := ih
        _ = .ok (claimPartitionAux dividing dnd dvs
            (((⟨ty, "/", arg, res⟩ : TermArm) :: rest).map fun b => (b.opVal, b.res))) := by
          simp [claimPartitionAux]

theorem claimPartitionAux_mem :
    ∀ (ps : List (String × Frag)) (d : Bool) (dnd dvs : List Frag) (f : Frag),
    (f ∈ (claimPartitionAux d dnd dvs ps).1 ∨ f ∈ (claimPartitionAux d dnd dvs ps).2) →
    f ∈ dnd ∨ f ∈ dvs ∨ f ∈ ps.map Prod.snd
  | [], d, dnd, dvs, f, h => by
    simp only [claimPartitionAux] at h
    rcases h with h | h
    · exact Or.inl h
    · exact Or.inr (Or.inl h)
  | (op, x) :: rest, d, dnd, dvs, f, h => by
    by_cases hop : op = "/"
    · simp only [claimPartitionAux, hop, if_pos] at h
      rcases claimPartitionAux_mem rest true dnd (dvs ++ [x]) f (by simpa using h)
        with h2 | h2 | h2
      · exact Or.inl h2
      · rcases List.mem_append.mp h2 with h3 | h3
        · exact Or.inr (Or.inl h3)
        · simp only [List.mem_singleton] at h3
          subst h3
          simp
      · exact Or.inr (Or.inr (by simp [h2]))
    · simp only [claimPartitionAux, hop, if_neg, if_false] at h
      rcases claimPartitionAux_mem rest false (dnd ++ [x]) dvs f (by simpa using h)
        with h2 | h2 | h2
      · rcases List.mem_append.mp h2 with h3 | h3
        · exact Or.inl h3
        · simp only [List.mem_singleton] at h3
          subst h3
          simp
      · exact Or.inr (Or.inl h2)
      · exact Or.inr (Or.inr (by simp [h2]))

theorem termRender_claim (dnd dvs : List Frag)
    (h1 : ∀ f ∈ dnd, f.isStrLike = true) (h2 : ∀ f ∈ dvs, f.isStrLike = true) :
    termRender dnd dvs = .ok (.str (claimTermRender dnd dvs)) := by
  have hd : pyJoin " \\cdot " (if 1 < dnd.length then dnd.map bracketize else dnd) =
      .ok (joinSep " \\cdot "
        ((if 1 < dnd.length then dnd.map bracketize else dnd).map Frag.toStr)) := by
    apply pyJoin_of_strLike
    intro f hf
    by_cases hl : 1 < dnd.length
    · rw [if_pos hl] at hf
      rcases List.mem_map.mp hf with ⟨g, _, rfl⟩
      exact bracketize_isStrLike g
    · rw [if_neg hl] at hf
      exact h1 f hf
  have hv : pyJoin " \\cdot " (if 1 < dvs.length then dvs.map bracketize else dvs) =
      .ok (joinSep " \\cdot "
        ((if 1 < dvs.length then dvs.map bracketize else dvs).map Frag.toStr)) := by
    apply pyJoin_of_strLike
    intro f hf
    by_cases hl : 1 < dvs.length
    · rw [if_pos hl] at hf
      rcases List.mem_map.mp hf with ⟨g, _, rfl⟩
      exact bracketize_isStrLike g
    · rw [if_neg hl] at hf
      exact h2 f hf
  by_cases hdv : dvs.isEmpty
  · simp [termRender, claimTermRender, hd, hdv, pure, Except.pure]
  · simp [termRender, claimTermRender, hd, hv, hdv, pure, Except.pure]

/-- C1: a multiplicative term whose operators are all `*` or `/` is
rendered by partitioning the operands left to right with a
currently-dividing flag (false at the start, set true by `/`, set false
again by `*`), appending each operand to the dividend or the divisor list
accordingly; the result is the dividend operands joined with ` \cdot `
(operands bracketized when a list has more than one element) when the
divisor list is empty, and `\frac{dividend}{divisor}` otherwise.  In
particular `a * b / c * d` yields dividend `[a, b, d]` and divisor `[c]`,
and `def f(x, y): return x / y` renders as `f(x, y) = \frac{x}{y}`. -/
theorem term_division_toggling :
    (∀ (x0 : PTree) (arms : List TermArm) (f0 : Frag),
      visit x0 = .ok f0 →
      (∀ a ∈ arms, visit a.arg = .ok a.res) →
      (∀ a ∈ arms, a.opVal = "*" ∨ a.opVal = "/") →
      f0.isStrLike = true →
      (∀ a ∈ arms, a.res.isStrLike = true) →
      visit (.node "term" (termChildren x0 arms)) =
        .ok (.str (claimTermRender
          (claimPartition f0 (arms.map fun a => (a.opVal, a.res))).1
          (claimPartition f0 (arms.map fun a => (a.opVal, a.res))).2))) ∧
    visit (.node "term" (termChildren (varN "a")
      [⟨"STAR", "*", varN "b", .tok "NAME" "b"⟩,
       ⟨"SLASH", "/", varN "c", .tok "NAME" "c"⟩,
       ⟨"STAR", "*", varN "d", .tok "NAME" "d"⟩])) =
      .ok (.str "\\frac\x7ba \\cdot b \\cdot d\x7d\x7bc\x7d") ∧
    claimPartition (.tok "NAME" "a")
      [("*", .tok "NAME" "b"), ("/", .tok "NAME" "c"), ("*", .tok "NAME" "d")] =
      ([.tok "NAME" "a", .tok "NAME" "b", .tok "NAME" "d"], [.tok "NAME" "c"]) ∧
    py2math (.sourced srcDivXY) = .ok "f(x, y) = \\frac\x7bx\x7d\x7by\x7d" := by
  refine ⟨?_, rfl, rfl, rfl⟩
  intro x0 arms f0 h0 hv hops hs0 hsr
  rw [visit_term_node, visitChildren_termChildren x0 arms f0 h0 hv, exceptBind_ok]
  simp only [termRule]
  have hfirst : termScan false false [] [] (f0 :: armsFrags arms) =
      termScan true false [f0] [] (armsFrags arms) := rfl
  rw [hfirst, termScan_ops arms false [f0] [] hops, exceptBind_ok]
  rcases hp : claimPartitionAux false [f0] []
      (arms.map fun a => (a.opVal, a.res)) with ⟨dnd, dvs⟩
  have hmem : ∀ f, f ∈ dnd ∨ f ∈ dvs → f.isStrLike = true := by
    intro f hf
    have := claimPartitionAux_mem (arms.map fun a => (a.opVal, a.res))
      false [f0] [] f (by rw [hp]; exact hf)
    rcases this with h2 | h2 | h2
    · rcases List.mem_singleton.mp h2 with rfl
      exact hs0
    · cases h2
    · rw [List.map_map] at h2
      rcases List.mem_map.mp h2 with ⟨a, ha, rfl⟩
      exact hsr a ha
  have hrender := termRender_claim dnd dvs
    (fun f hf => hmem f (Or.inl hf)) (fun f hf => hmem f (Or.inr hf))
  rw [hp]
  dsimp only
  rw [hrender]
  rw [show claimPartition f0 (arms.map fun a => (a.opVal, a.res)) = (dnd, dvs) from hp]

/-- Witness for C1 at the operand/operator sequence of `x / y`. -/
theorem term_division_toggling_witness :
    visit (.node "term" (termChildren (varN "x")
      [⟨"SLASH", "/", varN "y", .tok "NAME" "y"⟩])) =
      .ok (.str (claimTermRender
        (claimPartition (.tok "NAME" "x") [("/", .tok "NAME" "y")]).1
        (claimPartition (.tok "NAME" "x") [("/", .tok "NAME" "y")]).2)) := by
  have h := term_division_toggling.1 (varN "x")
    [⟨"SLASH", "/", varN "y", .tok "NAME" "y"⟩] (.tok "NAME" "x") rfl
    (by
      intro a ha
      rcases List.mem_singleton.mp ha with rfl
      rfl)
    (by
      intro a ha
      rcases List.mem_singleton.mp ha with rfl
      exact Or.inr rfl)
    rfl
    (by
      intro a ha
      rcases List.mem_singleton.mp ha with rfl
      rfl)
  exact h
